import Mathlib

/-!
Verification of the MPMC thread-pool repository: a shallow embedding of the
bounded circular queue (Vyukov ring buffer), the blocking queue adapter and
the pool controller, together with proofs of the specification's claims.
The repository ships only the unit tests of these components, so each
embedded component is modelled from the specification text and checked
against the behaviour the unit tests pin down.
-/

set_option maxRecDepth 4000

/-- Smallest power of two that is at least `max 2 n`, computed by doubling
with structural fuel so that the kernel can evaluate it. The source rounds
queue capacities up to a power of two that is at least 2. -/
def pow2geAux : Nat → Nat → Nat → Nat
  | 0, _, acc => acc
  | fuel + 1, target, acc => if target ≤ acc then acc else pow2geAux fuel target (2 * acc)

/-- Capacity normalisation used by both queue constructors. -/
def nextPow2 (n : Nat) : Nat := pow2geAux n (max 2 n) 2

theorem pow2geAux_ge (fuel target acc : Nat) : acc ≤ pow2geAux fuel target acc := by
  induction fuel generalizing acc with
  | zero => simp [pow2geAux]
  | succ f ih =>
    simp only [pow2geAux]
    split
    · exact Nat.le_refl _
    · exact Nat.le_trans (by omega) (ih (2 * acc))

theorem nextPow2_ge_two (n : Nat) : 2 ≤ nextPow2 n := pow2geAux_ge n (max 2 n) 2

/-- List lookup with default after a `set` at the same index. -/
theorem getD_set_self {β : Type _} (l : List β) (i : Nat) (a d : β) (h : i < l.length) :
    (l.set i a).getD i d = a := by
  induction l generalizing i with
  | nil => simp at h
  | cons x xs ih =>
    cases i with
    | zero => simp
    | succ n => simpa using ih n (by simpa using h)

/-- List lookup with default after a `set` at a different index. -/
theorem getD_set_ne {β : Type _} (l : List β) (i j : Nat) (a d : β) (h : i ≠ j) :
    (l.set i a).getD j d = l.getD j d := by
  induction l generalizing i j with
  | nil => simp
  | cons x xs ih =>
    cases i with
    | zero =>
      cases j with
      | zero => exact absurd rfl h
      | succ m => simp
    | succ n =>
      cases j with
      | zero => simp
      | succ m => simpa using ih n m (by omega)

/-- Lookup with default in a mapped range. -/
theorem getD_map_range {β : Type _} (c k : Nat) (f : Nat → β) (d : β) (h : k < c) :
    (((List.range c).map f).getD k d) = f k := by
  induction c generalizing k with
  | zero => omega
  | succ m ih =>
    rcases Nat.lt_or_ge k m with hk | hk
    · rw [List.range_succ, List.map_append, List.getD_append _ _ _ _ (by simpa using hk)]
      exact ih k hk
    · have hk' : k = m := by omega
      subst hk'
      rw [List.range_succ, List.map_append]
      rw [List.getD_append_right _ _ _ _ (by simp)]
      simp

/-- Residues of `d + a` and `d + b` modulo `c` agree only when `a = b`,
for `a b < c`. Used to show distinct ring positions use distinct slots. -/
theorem add_mod_inj {c d a b : Nat} (ha : a < c) (hb : b < c)
    (h : (d + a) % c = (d + b) % c) : a = b := by
  have h2 : a ≡ b [MOD c] := Nat.ModEq.add_left_cancel' d h
  have h3 : a % c = b % c := h2
  rwa [Nat.mod_eq_of_lt ha, Nat.mod_eq_of_lt hb] at h3

/-- Modelled from the spec: the bounded MPMC ring buffer (component C1),
whose implementation header `mpmc/bounded_circular_queue.hpp` is not in the
repository snapshot. Each slot carries a sequence counter and a storage
cell; producers and consumers hold monotonically increasing positions
(the Vyukov discipline, spec section 3 and 4.1). The storage cell is an
`Option` so that a popped (moved-from) cell is representable. -/
structure BoundedCircularQueue (α : Type) where
  cap : Nat
  slots : List (Nat × Option α)
  enqueuePos : Nat
  dequeuePos : Nat
deriving DecidableEq

/-- Modelled from the spec: the constructor; capacity is rounded up to a
power of two that is at least 2, every slot `i` starts with sequence `i`
and an empty cell, and both positions start at zero. -/
def BoundedCircularQueue.make (α : Type) (n : Nat) : BoundedCircularQueue α :=
  let c := nextPow2 n
  ⟨c, (List.range c).map (fun i => (i, none)), 0, 0⟩

/-- Modelled from the spec (section 4.1): `TryPush` loads the producer
position and inspects the slot's sequence. If the sequence equals the
position the slot is claimed, the value stored with sequence `position+1`
and the position advanced; otherwise the queue is full and the call fails
without touching the caller's value. (The spec's `sequence > position`
branch re-loads because another producer raced; in this single-threaded
model the invariant rules that case out, so both non-equal cases report
full.) The third component models the caller's move-only argument after
the call: `none` when the value was moved into the slot, `some v` when the
call failed and the value was not consumed. -/
def BoundedCircularQueue.TryPush (q : BoundedCircularQueue α) (v : α) :
    Bool × BoundedCircularQueue α × Option α :=
  let idx := q.enqueuePos % q.cap
  let s := q.slots.getD idx (0, none)
  if s.1 = q.enqueuePos then
    (true, ⟨q.cap, q.slots.set idx (q.enqueuePos + 1, some v), q.enqueuePos + 1, q.dequeuePos⟩,
      none)
  else
    (false, q, some v)

/-- Modelled from the spec (section 4.1): `TryPop` mirrors `TryPush` using
the consumer position; a slot is readable when its sequence equals the
consumer position plus one. On success the value is moved out and the
sequence release-stored as `position + cap`. The first component is the
popped value (`none` models the boolean-false, no-output case). -/
def BoundedCircularQueue.TryPop (q : BoundedCircularQueue α) :
    Option α × BoundedCircularQueue α :=
  let idx := q.dequeuePos % q.cap
  let s := q.slots.getD idx (0, none)
  if s.1 = q.dequeuePos + 1 then
    (s.2, ⟨q.cap, q.slots.set idx (q.dequeuePos + q.cap, none), q.enqueuePos, q.dequeuePos + 1⟩)
  else
    (none, q)

/-- State invariant of the ring buffer: the capacity is at least two, the
slot list has `cap` entries, the consumer position never passes the
producer position nor lags it by more than `cap`, occupied positions hold
a published value with the post-publish sequence, and free positions hold
an empty cell whose sequence is the position itself. -/
def BoundedCircularQueue.inv (q : BoundedCircularQueue α) : Prop :=
  2 ≤ q.cap ∧
  q.slots.length = q.cap ∧
  q.dequeuePos ≤ q.enqueuePos ∧
  q.enqueuePos ≤ q.dequeuePos + q.cap ∧
  (∀ k, k < q.cap →
    (q.dequeuePos + k < q.enqueuePos →
      (q.slots.getD ((q.dequeuePos + k) % q.cap) (0, none)).1 = q.dequeuePos + k + 1 ∧
      (q.slots.getD ((q.dequeuePos + k) % q.cap) (0, none)).2.isSome = true) ∧
    (q.enqueuePos ≤ q.dequeuePos + k →
      q.slots.getD ((q.dequeuePos + k) % q.cap) (0, none) = (q.dequeuePos + k, none)))

instance (α : Type) [DecidableEq α] (q : BoundedCircularQueue α) : Decidable q.inv := by
  unfold BoundedCircularQueue.inv
  infer_instance

/-- Abstract contents of the ring buffer: the cells of the occupied
positions, oldest first. Under the invariant every entry is a `some`. -/
def BoundedCircularQueue.items (q : BoundedCircularQueue α) : List (Option α) :=
  (List.range (q.enqueuePos - q.dequeuePos)).map
    (fun k => (q.slots.getD ((q.dequeuePos + k) % q.cap) (0, none)).2)

theorem BoundedCircularQueue.items_length (q : BoundedCircularQueue α) :
    q.items.length = q.enqueuePos - q.dequeuePos := by
  simp [BoundedCircularQueue.items]

theorem BoundedCircularQueue.inv_make (α : Type) (n : Nat) :
    (BoundedCircularQueue.make α n).inv := by
  refine ⟨nextPow2_ge_two n, by simp [BoundedCircularQueue.make], by simp [make], ?_, ?_⟩
  · simp [BoundedCircularQueue.make]
  · intro k hk
    constructor
    · intro h
      simp [BoundedCircularQueue.make] at h
    · intro _
      have hk' : k < nextPow2 n := hk
      simp only [BoundedCircularQueue.make, Nat.zero_add]
      rw [Nat.mod_eq_of_lt hk', getD_map_range _ _ _ _ hk']

theorem BoundedCircularQueue.items_make (α : Type) (n : Nat) :
    (BoundedCircularQueue.make α n).items = [] := by
  simp [BoundedCircularQueue.items, BoundedCircularQueue.make]

theorem BoundedCircularQueue.push_eq {α : Type} (q : BoundedCircularQueue α) (v : α)
    (hc : (q.slots.getD (q.enqueuePos % q.cap) (0, none)).1 = q.enqueuePos) :
    q.TryPush v = (true,
      ⟨q.cap, q.slots.set (q.enqueuePos % q.cap) (q.enqueuePos + 1, some v),
       q.enqueuePos + 1, q.dequeuePos⟩, none) := by
  simp only [BoundedCircularQueue.TryPush]
  rw [if_pos hc]

theorem BoundedCircularQueue.pop_eq {α : Type} (q : BoundedCircularQueue α)
    (hc : (q.slots.getD (q.dequeuePos % q.cap) (0, none)).1 = q.dequeuePos + 1) :
    q.TryPop = ((q.slots.getD (q.dequeuePos % q.cap) (0, none)).2,
      ⟨q.cap, q.slots.set (q.dequeuePos % q.cap) (q.dequeuePos + q.cap, none),
       q.enqueuePos, q.dequeuePos + 1⟩) := by
  simp only [BoundedCircularQueue.TryPop]
  rw [if_pos hc]

theorem BoundedCircularQueue.push_full {α : Type} (q : BoundedCircularQueue α) (v : α)
    (h : q.inv) (hfull : q.enqueuePos = q.dequeuePos + q.cap) :
    q.TryPush v = (false, q, some v) := by
  obtain ⟨hcap, hlen, hle, hub, hslot⟩ := h
  have h0 := ((hslot 0 (by omega)).1 (by omega)).1
  have hidx : q.enqueuePos % q.cap = (q.dequeuePos + 0) % q.cap := by
    rw [hfull, Nat.add_zero, Nat.add_mod_right]
  have hne : (q.slots.getD (q.enqueuePos % q.cap) (0, none)).1 ≠ q.enqueuePos := by
    rw [hidx, h0]
    omega
  simp only [BoundedCircularQueue.TryPush]
  rw [if_neg hne]

theorem BoundedCircularQueue.pop_empty {α : Type} (q : BoundedCircularQueue α)
    (h : q.inv) (he : q.enqueuePos = q.dequeuePos) :
    q.TryPop = (none, q) := by
  obtain ⟨hcap, hlen, hle, hub, hslot⟩ := h
  have h0 := (hslot 0 (by omega)).2 (by omega)
  have hne : (q.slots.getD (q.dequeuePos % q.cap) (0, none)).1 ≠ q.dequeuePos + 1 := by
    rw [show q.dequeuePos % q.cap = (q.dequeuePos + 0) % q.cap by rw [Nat.add_zero], h0]
    omega
  simp only [BoundedCircularQueue.TryPop]
  rw [if_neg hne]

theorem BoundedCircularQueue.pushed_inv {α : Type} (q : BoundedCircularQueue α) (v : α)
    (h : q.inv) (hlt : q.enqueuePos < q.dequeuePos + q.cap) :
    (BoundedCircularQueue.mk q.cap
      (q.slots.set (q.enqueuePos % q.cap) (q.enqueuePos + 1, some v))
      (q.enqueuePos + 1) q.dequeuePos).inv := by
  obtain ⟨hcap, hlen, hle, hub, hslot⟩ := h
  have hk0 : q.enqueuePos - q.dequeuePos < q.cap := by omega
  have hdk0 : q.dequeuePos + (q.enqueuePos - q.dequeuePos) = q.enqueuePos := by omega
  have hidxlt : q.enqueuePos % q.cap < q.slots.length := by
    rw [hlen]; exact Nat.mod_lt _ (by omega)
  have hne_of : ∀ k, k < q.cap → k ≠ q.enqueuePos - q.dequeuePos →
      q.enqueuePos % q.cap ≠ (q.dequeuePos + k) % q.cap := by
    intro k hk hkne heq
    rw [← hdk0] at heq
    exact hkne (add_mod_inj hk0 hk heq).symm
  unfold BoundedCircularQueue.inv
  dsimp only
  refine ⟨hcap, by simpa using hlen, by omega, by omega, ?_⟩
  intro k hk
  constructor
  · intro hlt2
    by_cases hke : k = q.enqueuePos - q.dequeuePos
    · subst hke
      rw [hdk0, getD_set_self _ _ _ _ hidxlt]
      exact ⟨rfl, rfl⟩
    · have hne := hne_of k hk hke
      rw [getD_set_ne _ _ _ _ _ hne]
      have hlt3 : q.dequeuePos + k < q.enqueuePos := by omega
      exact (hslot k hk).1 hlt3
  · intro hge
    have hke : k ≠ q.enqueuePos - q.dequeuePos := by omega
    rw [getD_set_ne _ _ _ _ _ (hne_of k hk hke)]
    exact (hslot k hk).2 (by omega)

theorem BoundedCircularQueue.pushed_items {α : Type} (q : BoundedCircularQueue α) (v : α)
    (h : q.inv) (hlt : q.enqueuePos < q.dequeuePos + q.cap) :
    (BoundedCircularQueue.mk q.cap
      (q.slots.set (q.enqueuePos % q.cap) (q.enqueuePos + 1, some v))
      (q.enqueuePos + 1) q.dequeuePos).items = q.items ++ [some v] := by
  obtain ⟨hcap, hlen, hle, hub, hslot⟩ := h
  have hk0 : q.enqueuePos - q.dequeuePos < q.cap := by omega
  have hdk0 : q.dequeuePos + (q.enqueuePos - q.dequeuePos) = q.enqueuePos := by omega
  have hidxlt : q.enqueuePos % q.cap < q.slots.length := by
    rw [hlen]; exact Nat.mod_lt _ (by omega)
  have hne_of : ∀ k, k < q.cap → k ≠ q.enqueuePos - q.dequeuePos →
      q.enqueuePos % q.cap ≠ (q.dequeuePos + k) % q.cap := by
    intro k hk hkne heq
    rw [← hdk0] at heq
    exact hkne (add_mod_inj hk0 hk heq).symm
  unfold BoundedCircularQueue.items
  dsimp only
  have hrange : q.enqueuePos + 1 - q.dequeuePos = (q.enqueuePos - q.dequeuePos) + 1 := by
    omega
  rw [hrange, List.range_succ, List.map_append]
  congr 1
  · apply List.map_congr_left
    intro k hkmem
    have hk : k < q.enqueuePos - q.dequeuePos := List.mem_range.mp hkmem
    rw [getD_set_ne _ _ _ _ _ (hne_of k (by omega) (by omega))]
  · simp only [List.map_cons, List.map_nil]
    rw [hdk0, getD_set_self _ _ _ _ hidxlt]

theorem BoundedCircularQueue.push_ok {α : Type} (q : BoundedCircularQueue α) (v : α)
    (h : q.inv) (hlt : q.enqueuePos < q.dequeuePos + q.cap) :
    (q.TryPush v).1 = true ∧ (q.TryPush v).2.1.inv ∧
    (q.TryPush v).2.1.items = q.items ++ [some v] ∧ (q.TryPush v).2.2 = none := by
  have hk0 : q.enqueuePos - q.dequeuePos < q.cap := by
    obtain ⟨hcap, hlen, hle, hub, hslot⟩ := h
    omega
  have hdk0 : q.dequeuePos + (q.enqueuePos - q.dequeuePos) = q.enqueuePos := by
    obtain ⟨hcap, hlen, hle, hub, hslot⟩ := h
    omega
  have hempty := (h.2.2.2.2 (q.enqueuePos - q.dequeuePos) hk0).2 (by omega)
  rw [hdk0] at hempty
  have hc : (q.slots.getD (q.enqueuePos % q.cap) (0, none)).1 = q.enqueuePos := by
    rw [hempty]
  rw [BoundedCircularQueue.push_eq q v hc]
  exact ⟨rfl, BoundedCircularQueue.pushed_inv q v h hlt,
    BoundedCircularQueue.pushed_items q v h hlt, rfl⟩

theorem BoundedCircularQueue.popped_inv {α : Type} (q : BoundedCircularQueue α)
    (h : q.inv) (hne : q.dequeuePos < q.enqueuePos) :
    (BoundedCircularQueue.mk q.cap
      (q.slots.set (q.dequeuePos % q.cap) (q.dequeuePos + q.cap, none))
      q.enqueuePos (q.dequeuePos + 1)).inv := by
  obtain ⟨hcap, hlen, hle, hub, hslot⟩ := h
  have hidxlt : q.dequeuePos % q.cap < q.slots.length := by
    rw [hlen]; exact Nat.mod_lt _ (by omega)
  have hne_of : ∀ k, 0 < k → k < q.cap →
      q.dequeuePos % q.cap ≠ (q.dequeuePos + k) % q.cap := by
    intro k hkpos hk heq
    rw [show q.dequeuePos % q.cap = (q.dequeuePos + 0) % q.cap by rw [Nat.add_zero]] at heq
    have := add_mod_inj (c := q.cap) (by omega) hk heq
    omega
  unfold BoundedCircularQueue.inv
  dsimp only
  refine ⟨hcap, by simpa using hlen, by omega, by omega, ?_⟩
  intro k hk
  by_cases hke : k + 1 = q.cap
  · have hpos : q.dequeuePos + 1 + k = q.dequeuePos + q.cap := by omega
    have hidx : (q.dequeuePos + 1 + k) % q.cap = q.dequeuePos % q.cap := by
      rw [hpos, Nat.add_mod_right]
    constructor
    · intro hlt2
      omega
    · intro hge
      rw [hidx, getD_set_self _ _ _ _ hidxlt, hpos]
  · have hlt1k : k + 1 < q.cap := by omega
    have hidx : (q.dequeuePos + 1 + k) % q.cap = (q.dequeuePos + (k + 1)) % q.cap := by
      congr 1
      omega
    have hnei : q.dequeuePos % q.cap ≠ (q.dequeuePos + 1 + k) % q.cap := by
      rw [hidx]
      exact hne_of (k + 1) (by omega) hlt1k
    constructor
    · intro hlt2
      rw [getD_set_ne _ _ _ _ _ hnei, hidx]
      have hold := (hslot (k + 1) hlt1k).1 (by omega)
      refine ⟨?_, hold.2⟩
      rw [hold.1]
      omega
    · intro hge
      rw [getD_set_ne _ _ _ _ _ hnei, hidx]
      have hold := (hslot (k + 1) hlt1k).2 (by omega)
      rw [hold]
      congr 1
      omega

theorem BoundedCircularQueue.popped_items {α : Type} (q : BoundedCircularQueue α)
    (h : q.inv) (hne : q.dequeuePos < q.enqueuePos) :
    q.items = (q.slots.getD (q.dequeuePos % q.cap) (0, none)).2 ::
      (BoundedCircularQueue.mk q.cap
        (q.slots.set (q.dequeuePos % q.cap) (q.dequeuePos + q.cap, none))
        q.enqueuePos (q.dequeuePos + 1)).items := by
  obtain ⟨hcap, hlen, hle, hub, hslot⟩ := h
  have hne_of : ∀ k, 0 < k → k < q.cap →
      q.dequeuePos % q.cap ≠ (q.dequeuePos + k) % q.cap := by
    intro k hkpos hk heq
    rw [show q.dequeuePos % q.cap = (q.dequeuePos + 0) % q.cap by rw [Nat.add_zero]] at heq
    have := add_mod_inj (c := q.cap) (by omega) hk heq
    omega
  unfold BoundedCircularQueue.items
  dsimp only
  have hrange : q.enqueuePos - q.dequeuePos = (q.enqueuePos - (q.dequeuePos + 1)) + 1 := by
    omega
  rw [hrange, List.range_succ_eq_map, List.map_cons, List.map_map]
  congr 1
  apply List.map_congr_left
  intro k hkmem
  have hk : k < q.enqueuePos - (q.dequeuePos + 1) := List.mem_range.mp hkmem
  have hk1 : k + 1 < q.cap := by omega
  simp only [Function.comp_apply]
  have harg : q.dequeuePos + (k + 1) = q.dequeuePos + 1 + k := by omega
  rw [show Nat.succ k = k + 1 from rfl, harg,
    getD_set_ne _ _ _ _ _ (by rw [← harg]; exact hne_of (k + 1) (by omega) hk1)]

theorem BoundedCircularQueue.pop_ok {α : Type} (q : BoundedCircularQueue α)
    (h : q.inv) (hne : q.dequeuePos < q.enqueuePos) :
    (q.TryPop).1 = (q.slots.getD (q.dequeuePos % q.cap) (0, none)).2 ∧
    (q.TryPop).1.isSome = true ∧
    (q.TryPop).2.inv ∧
    q.items = (q.TryPop).1 :: (q.TryPop).2.items := by
  have hocc := (h.2.2.2.2 0 (by obtain ⟨hcap, _, _, _, _⟩ := h; omega)).1 (by omega)
  rw [Nat.add_zero] at hocc
  rw [BoundedCircularQueue.pop_eq q hocc.1]
  exact ⟨rfl, hocc.2, BoundedCircularQueue.popped_inv q h hne,
    BoundedCircularQueue.popped_items q h hne⟩

theorem BoundedCircularQueue.cap_TryPush {α : Type} (q : BoundedCircularQueue α) (v : α) :
    (q.TryPush v).2.1.cap = q.cap := by
  simp only [BoundedCircularQueue.TryPush]
  split <;> rfl

theorem BoundedCircularQueue.cap_TryPop {α : Type} (q : BoundedCircularQueue α) :
    (q.TryPop).2.cap = q.cap := by
  simp only [BoundedCircularQueue.TryPop]
  split <;> rfl

/-- One client call on a queue: a push of a value or a pop. -/
inductive QOp (α : Type) where
  | push (v : α)
  | pop
deriving DecidableEq

/-- Observable outcome of one call: the boolean a push returned, or the
value (if any) a pop produced. -/
inductive QEvent (α : Type) where
  | pushed (ok : Bool)
  | popped (r : Option α)
deriving DecidableEq

/-- Run a sequence of calls against the ring buffer, collecting the
observable outcome of each call. -/
def runRing {α : Type} : List (QOp α) → BoundedCircularQueue α →
    BoundedCircularQueue α × List (QEvent α)
  | [], q => (q, [])
  | .push v :: rest, q =>
    let r := q.TryPush v
    let t := runRing rest r.2.1
    (t.1, .pushed r.1 :: t.2)
  | .pop :: rest, q =>
    let r := q.TryPop
    let t := runRing rest r.2
    (t.1, .popped r.1 :: t.2)

/-- Reference model of a bounded FIFO queue of capacity `cap`: a plain
list holding the values in push order, following the contract wording of
spec section 4.1. A push onto a full list fails and changes nothing; a pop
from an empty list fails and changes nothing; otherwise values leave in
exactly the order they entered. -/
def runSpec {α : Type} (cap : Nat) : List (QOp α) → List α → List α × List (QEvent α)
  | [], s => (s, [])
  | .push v :: rest, s =>
    if s.length < cap then
      let t := runSpec cap rest (s ++ [v])
      (t.1, .pushed true :: t.2)
    else
      let t := runSpec cap rest s
      (t.1, .pushed false :: t.2)
  | .pop :: rest, s =>
    match s with
    | [] =>
      let t := runSpec cap rest ([] : List α)
      (t.1, .popped none :: t.2)
    | x :: xs =>
      let t := runSpec cap rest xs
      (t.1, .popped (some x) :: t.2)

theorem runRing_refines_runSpec {α : Type} (ops : List (QOp α))
    (q : BoundedCircularQueue α) (s : List α)
    (hq : q.inv) (habs : q.items = s.map some) :
    (runRing ops q).2 = (runSpec q.cap ops s).2 ∧
    (runRing ops q).1.items = ((runSpec q.cap ops s).1).map some ∧
    (runRing ops q).1.inv ∧ (runRing ops q).1.cap = q.cap := by
  induction ops generalizing q s with
  | nil => exact ⟨rfl, habs, hq, rfl⟩
  | cons op rest ih =>
    obtain ⟨hcap, hlen, hle, hub, hslot⟩ := hq
    have hlen_items : q.items.length = q.enqueuePos - q.dequeuePos :=
      BoundedCircularQueue.items_length q
    cases op with
    | push v =>
      by_cases hfull : s.length < q.cap
      · have hlt : q.enqueuePos < q.dequeuePos + q.cap := by
          have : q.items.length = s.length := by rw [habs, List.length_map]
          omega
        have hstep := BoundedCircularQueue.push_ok q v
          ⟨hcap, hlen, hle, hub, hslot⟩ hlt
        have hcap2 : (q.TryPush v).2.1.cap = q.cap := BoundedCircularQueue.cap_TryPush q v
        have habs2 : (q.TryPush v).2.1.items = (s ++ [v]).map some := by
          rw [hstep.2.2.1, habs, List.map_append]
          rfl
        have hrec := ih (q.TryPush v).2.1 (s ++ [v]) hstep.2.1 habs2
        rw [hcap2] at hrec
        refine ⟨?_, ?_, ?_, ?_⟩
        · show QEvent.pushed (q.TryPush v).1 :: (runRing rest (q.TryPush v).2.1).2 = _
          rw [hstep.1]
          simp only [runSpec, if_pos hfull]
          exact congrArg _ hrec.1
        · show (runRing rest (q.TryPush v).2.1).1.items = _
          simp only [runSpec, if_pos hfull]
          exact hrec.2.1
        · exact hrec.2.2.1
        · show (runRing rest (q.TryPush v).2.1).1.cap = q.cap
          exact hrec.2.2.2
      · have hfull2 : q.enqueuePos = q.dequeuePos + q.cap := by
          have h1 : q.items.length = s.length := by rw [habs, List.length_map]
          omega
        have hstep := BoundedCircularQueue.push_full q v
          ⟨hcap, hlen, hle, hub, hslot⟩ hfull2
        have hrec := ih q s ⟨hcap, hlen, hle, hub, hslot⟩ habs
        refine ⟨?_, ?_, ?_, ?_⟩
        · show QEvent.pushed (q.TryPush v).1 :: (runRing rest (q.TryPush v).2.1).2 = _
          rw [hstep]
          simp only [runSpec, if_neg hfull]
          exact congrArg _ hrec.1
        · show (runRing rest (q.TryPush v).2.1).1.items = _
          rw [hstep]
          simp only [runSpec, if_neg hfull]
          exact hrec.2.1
        · show (runRing rest (q.TryPush v).2.1).1.inv
          rw [hstep]
          exact hrec.2.2.1
        · show (runRing rest (q.TryPush v).2.1).1.cap = q.cap
          rw [hstep]
          exact hrec.2.2.2
    | pop =>
      cases s with
      | nil =>
        have hemp : q.enqueuePos = q.dequeuePos := by
          have h1 : q.items.length = 0 := by rw [habs]; rfl
          omega
        have hstep := BoundedCircularQueue.pop_empty q
          ⟨hcap, hlen, hle, hub, hslot⟩ hemp
        have hrec := ih q [] ⟨hcap, hlen, hle, hub, hslot⟩ habs
        refine ⟨?_, ?_, ?_, ?_⟩
        · show QEvent.popped (q.TryPop).1 :: (runRing rest (q.TryPop).2).2 = _
          rw [hstep]
          simp only [runSpec]
          exact congrArg _ hrec.1
        · show (runRing rest (q.TryPop).2).1.items = _
          rw [hstep]
          simp only [runSpec]
          exact hrec.2.1
        · show (runRing rest (q.TryPop).2).1.inv
          rw [hstep]
          exact hrec.2.2.1
        · show (runRing rest (q.TryPop).2).1.cap = q.cap
          rw [hstep]
          exact hrec.2.2.2
      | cons x xs =>
        have hne : q.dequeuePos < q.enqueuePos := by
          have h1 : q.items.length = xs.length + 1 := by
            rw [habs]
            simp
          omega
        have hstep := BoundedCircularQueue.pop_ok q ⟨hcap, hlen, hle, hub, hslot⟩ hne
        have hfst : (q.TryPop).1 = some x := by
          have h2 := hstep.2.2.2
          rw [habs] at h2
          exact (List.cons.injEq _ _ _ _ ▸ h2).1.symm
        have habs2 : (q.TryPop).2.items = xs.map some := by
          have h2 := hstep.2.2.2
          rw [habs] at h2
          exact ((List.cons.injEq _ _ _ _ ▸ h2).2).symm
        have hcap2 : (q.TryPop).2.cap = q.cap := BoundedCircularQueue.cap_TryPop q
        have hrec := ih (q.TryPop).2 xs hstep.2.2.1 habs2
        rw [hcap2] at hrec
        refine ⟨?_, ?_, ?_, ?_⟩
        · show QEvent.popped (q.TryPop).1 :: (runRing rest (q.TryPop).2).2 = _
          rw [hfst]
          simp only [runSpec]
          exact congrArg _ hrec.1
        · show (runRing rest (q.TryPop).2).1.items = _
          simp only [runSpec]
          exact hrec.2.1
        · exact hrec.2.2.1
        · show (runRing rest (q.TryPop).2).1.cap = q.cap
          exact hrec.2.2.2

/-- C3: for every sequence of `TryPush`/`TryPop` calls on a bounded
circular queue, the observable outcomes coincide with those of an ideal
bounded FIFO list of the same capacity (so values are popped in exactly
push order, across arbitrarily many wrap-around cycles), and at the level
of a single call: a pop on an empty queue fails and leaves the queue
unchanged, a push on a queue holding `cap` items fails, leaves the queue
unchanged and does not consume the value, and otherwise push and pop
succeed, the push appending its value and the pop removing the oldest. -/
theorem bounded_queue_fifo_behaviour {α : Type} (n : Nat) (ops : List (QOp α))
    (q : BoundedCircularQueue α) (v : α) (hq : q.inv) :
    ((runRing ops (BoundedCircularQueue.make α n)).2
        = (runSpec (BoundedCircularQueue.make α n).cap ops []).2) ∧
    ((runRing ops (BoundedCircularQueue.make α n)).1.items
        = ((runSpec (BoundedCircularQueue.make α n).cap ops []).1).map some) ∧
    (q.items = [] → q.TryPop = (none, q)) ∧
    (q.items.length = q.cap → q.TryPush v = (false, q, some v)) ∧
    (q.items.length < q.cap →
      (q.TryPush v).1 = true ∧ (q.TryPush v).2.1.inv ∧
      (q.TryPush v).2.1.items = q.items ++ [some v] ∧ (q.TryPush v).2.2 = none) ∧
    (∀ x rest, q.items = some x :: rest →
      (q.TryPop).1 = some x ∧ (q.TryPop).2.inv ∧ (q.TryPop).2.items = rest) := by
  have htrace := runRing_refines_runSpec ops (BoundedCircularQueue.make α n) []
    (BoundedCircularQueue.inv_make α n)
    (by rw [BoundedCircularQueue.items_make]; rfl)
  have hlen : q.items.length = q.enqueuePos - q.dequeuePos :=
    BoundedCircularQueue.items_length q
  obtain ⟨hcap, hslen, hle, hub, hslot⟩ := hq
  refine ⟨htrace.1, htrace.2.1, ?_, ?_, ?_, ?_⟩
  · intro hempty
    have h0 : q.items.length = 0 := by rw [hempty]; rfl
    exact BoundedCircularQueue.pop_empty q ⟨hcap, hslen, hle, hub, hslot⟩ (by omega)
  · intro hfull
    exact BoundedCircularQueue.push_full q v ⟨hcap, hslen, hle, hub, hslot⟩ (by omega)
  · intro hroom
    exact BoundedCircularQueue.push_ok q v ⟨hcap, hslen, hle, hub, hslot⟩ (by omega)
  · intro x rest hcons
    have h1 : q.items.length = rest.length + 1 := by rw [hcons]; rfl
    have hstep := BoundedCircularQueue.pop_ok q ⟨hcap, hslen, hle, hub, hslot⟩ (by omega)
    have hdec := hstep.2.2.2
    rw [hcons] at hdec
    have hfst : (q.TryPop).1 = some x := ((List.cons.injEq _ _ _ _ ▸ hdec).1).symm
    have htail : (q.TryPop).2.items = rest := ((List.cons.injEq _ _ _ _ ▸ hdec).2).symm
    exact ⟨hfst, hstep.2.2.1, htail⟩

/-- Witness for C3 at capacity 2 with a concrete full queue. -/
theorem bounded_queue_fifo_behaviour_witness :
    ((((BoundedCircularQueue.make Nat 2).TryPush 1).2.1.TryPush 2).2.1.inv ∧
      (((BoundedCircularQueue.make Nat 2).TryPush 1).2.1.TryPush 2).2.1.items.length
        = (((BoundedCircularQueue.make Nat 2).TryPush 1).2.1.TryPush 2).2.1.cap) ∧
    ((((BoundedCircularQueue.make Nat 2).TryPush 1).2.1.TryPush 2).2.1.TryPush 3
        = (false, (((BoundedCircularQueue.make Nat 2).TryPush 1).2.1.TryPush 2).2.1, some 3)) ∧
    (runRing [QOp.push 1, QOp.push 2, QOp.push 3, QOp.pop] (BoundedCircularQueue.make Nat 2)).2
        = (runSpec (BoundedCircularQueue.make Nat 2).cap
            [QOp.push 1, QOp.push 2, QOp.push 3, QOp.pop] []).2 := by
  refine ⟨⟨by decide, by decide⟩, ?_, ?_⟩
  · exact (bounded_queue_fifo_behaviour 2 []
      ((((BoundedCircularQueue.make Nat 2).TryPush 1).2.1.TryPush 2).2.1) 3
      (by decide)).2.2.2.1 (by decide)
  · exact (bounded_queue_fifo_behaviour 2 [QOp.push 1, QOp.push 2, QOp.push 3, QOp.pop]
      (BoundedCircularQueue.make Nat 2) 0 (BoundedCircularQueue.inv_make Nat 2)).1

/-- Modelled from the spec: the blocking queue adapter (component C2),
whose implementation header `mpmc/blocking_queue_adapter.hpp` is not in
the repository snapshot. It owns a ring buffer, a closed flag and a
monotonic discard counter; the condition-variable machinery only parks
threads and is not part of this sequential model. Per the unit test
`BlockingQueueAdapter.DiscardCounter`, a `TryPush` that fails because the
buffer is full counts one discard. -/
structure BlockingQueueAdapter (α : Type) where
  buf : BoundedCircularQueue α
  closed : Bool
  discardCount : Nat
deriving DecidableEq

/-- Adapter constructor: fresh buffer, open, zero discards. -/
def BlockingQueueAdapter.make (α : Type) (n : Nat) : BlockingQueueAdapter α :=
  ⟨BoundedCircularQueue.make α n, false, 0⟩

/-- Modelled from the spec: a closed adapter refuses every push; otherwise
the push is delegated to the ring buffer, and a full-buffer failure bumps
the discard counter. The third component again models the caller's
move-only argument: untouched (`some v`) whenever the push fails. -/
def BlockingQueueAdapter.TryPush (a : BlockingQueueAdapter α) (v : α) :
    Bool × BlockingQueueAdapter α × Option α :=
  if a.closed then (false, a, some v)
  else
    let r := a.buf.TryPush v
    if r.1 then (true, ⟨r.2.1, a.closed, a.discardCount⟩, none)
    else (false, ⟨a.buf, a.closed, a.discardCount + 1⟩, some v)

/-- Modelled from the spec: pops are delegated to the ring buffer; a
closed adapter still pops until the buffer is empty. -/
def BlockingQueueAdapter.TryPop (a : BlockingQueueAdapter α) :
    Option α × BlockingQueueAdapter α :=
  let r := a.buf.TryPop
  (r.1, ⟨r.2, a.closed, a.discardCount⟩)

/-- Modelled from the spec: `Close` sets the closed flag (and wakes
waiters, which the sequential model has none of). -/
def BlockingQueueAdapter.Close (a : BlockingQueueAdapter α) : BlockingQueueAdapter α :=
  ⟨a.buf, true, a.discardCount⟩

/-- Pop all slots once; `Clear` drains at most `cap` resident items. -/
def BoundedCircularQueue.popN {α : Type} : Nat → BoundedCircularQueue α → BoundedCircularQueue α
  | 0, q => q
  | n + 1, q => BoundedCircularQueue.popN n (q.TryPop).2

/-- Modelled from the spec: `Clear` drains all items from the buffer. -/
def BlockingQueueAdapter.Clear (a : BlockingQueueAdapter α) : BlockingQueueAdapter α :=
  ⟨BoundedCircularQueue.popN a.buf.cap a.buf, a.closed, a.discardCount⟩

/-- Accessor for the monotonic discard counter. -/
def BlockingQueueAdapter.DiscardCount (a : BlockingQueueAdapter α) : Nat :=
  a.discardCount

/-- Modelled from the spec: resets the discard counter to zero. -/
def BlockingQueueAdapter.ResetDiscardCounter (a : BlockingQueueAdapter α) :
    BlockingQueueAdapter α :=
  ⟨a.buf, a.closed, 0⟩

/-- C1: a `TryPush` that fails on a full bounded queue, or on a full
(open) blocking adapter, does not consume its argument — the caller's
value survives the call intact — and the stored items are unchanged. -/
theorem trypush_no_consume_on_failure {α : Type} (q : BoundedCircularQueue α)
    (a : BlockingQueueAdapter α) (v w : α) :
    (q.inv → q.items.length = q.cap → q.TryPush v = (false, q, some v)) ∧
    (a.buf.inv → a.buf.items.length = a.buf.cap → a.closed = false →
      (a.TryPush w).1 = false ∧ (a.TryPush w).2.2 = some w ∧
      (a.TryPush w).2.1.buf = a.buf ∧
      (a.TryPush w).2.1.buf.items = a.buf.items) := by
  constructor
  · intro hq hfull
    have hlen : q.items.length = q.enqueuePos - q.dequeuePos :=
      BoundedCircularQueue.items_length q
    obtain ⟨hcap, hslen, hle, hub, hslot⟩ := hq
    exact BoundedCircularQueue.push_full q v ⟨hcap, hslen, hle, hub, hslot⟩ (by omega)
  · intro hb hfull hopen
    have hlen : a.buf.items.length = a.buf.enqueuePos - a.buf.dequeuePos :=
      BoundedCircularQueue.items_length a.buf
    have hfail : a.buf.TryPush w = (false, a.buf, some w) := by
      obtain ⟨hcap, hslen, hle, hub, hslot⟩ := hb
      exact BoundedCircularQueue.push_full a.buf w ⟨hcap, hslen, hle, hub, hslot⟩ (by omega)
    simp [BlockingQueueAdapter.TryPush, hopen, hfail]

/-- Witness for C1 on a concrete full queue and full adapter of capacity 2. -/
theorem trypush_no_consume_on_failure_witness :
    ((((BoundedCircularQueue.make Nat 2).TryPush 1).2.1.TryPush 2).2.1.TryPush 9
      = (false, (((BoundedCircularQueue.make Nat 2).TryPush 1).2.1.TryPush 2).2.1, some 9)) ∧
    ((((((BlockingQueueAdapter.make Nat 2).TryPush 7).2.1.TryPush 8).2.1).TryPush 9).1 = false ∧
     (((((BlockingQueueAdapter.make Nat 2).TryPush 7).2.1.TryPush 8).2.1).TryPush 9).2.2
        = some 9) := by
  have h := trypush_no_consume_on_failure
    ((((BoundedCircularQueue.make Nat 2).TryPush 1).2.1.TryPush 2).2.1)
    ((((BlockingQueueAdapter.make Nat 2).TryPush 7).2.1.TryPush 8).2.1) 9 9
  refine ⟨h.1 (by decide) (by decide), ?_⟩
  have h2 := h.2 (by decide) (by decide) (by decide)
  exact ⟨h2.1, h2.2.1⟩

/-- C10: on the blocking adapter, a `TryPush` that fails because the
buffer is full bumps `DiscardCount` by exactly one even though the value
is not consumed and no stored item is removed; no adapter operation other
than `ResetDiscardCounter` ever decreases the counter, and the reset sets
it to zero. -/
theorem adapter_discard_counter {α : Type} (a : BlockingQueueAdapter α) (v : α) :
    (a.buf.inv → a.buf.items.length = a.buf.cap → a.closed = false →
      (a.TryPush v).1 = false ∧
      (a.TryPush v).2.1.DiscardCount = a.DiscardCount + 1 ∧
      (a.TryPush v).2.2 = some v ∧
      (a.TryPush v).2.1.buf = a.buf) ∧
    a.DiscardCount ≤ (a.TryPush v).2.1.DiscardCount ∧
    (a.TryPop).2.DiscardCount = a.DiscardCount ∧
    (a.Close).DiscardCount = a.DiscardCount ∧
    (a.Clear).DiscardCount = a.DiscardCount ∧
    (a.ResetDiscardCounter).DiscardCount = 0 := by
  refine ⟨?_, ?_, rfl, rfl, rfl, rfl⟩
  · intro hb hfull hopen
    have hlen : a.buf.items.length = a.buf.enqueuePos - a.buf.dequeuePos :=
      BoundedCircularQueue.items_length a.buf
    have hfail : a.buf.TryPush v = (false, a.buf, some v) := by
      obtain ⟨hcap, hslen, hle, hub, hslot⟩ := hb
      exact BoundedCircularQueue.push_full a.buf v ⟨hcap, hslen, hle, hub, hslot⟩ (by omega)
    simp [BlockingQueueAdapter.TryPush, BlockingQueueAdapter.DiscardCount, hopen, hfail]
  · simp only [BlockingQueueAdapter.TryPush, BlockingQueueAdapter.DiscardCount]
    split
    · exact Nat.le_refl _
    · split
      · exact Nat.le_refl _
      · exact Nat.le_succ _

/-- Witness for C10 on a concrete full adapter of capacity 2. -/
theorem adapter_discard_counter_witness :
    (((((BlockingQueueAdapter.make Nat 2).TryPush 7).2.1.TryPush 8).2.1.TryPush 9).1 = false ∧
     ((((BlockingQueueAdapter.make Nat 2).TryPush 7).2.1.TryPush 8).2.1.TryPush 9).2.1.DiscardCount
       = ((((BlockingQueueAdapter.make Nat 2).TryPush 7).2.1.TryPush 8).2.1).DiscardCount + 1) ∧
    (((((BlockingQueueAdapter.make Nat 2).TryPush 7).2.1.TryPush 8).2.1).ResetDiscardCounter).DiscardCount
      = 0 := by
  have h := adapter_discard_counter
    ((((BlockingQueueAdapter.make Nat 2).TryPush 7).2.1.TryPush 8).2.1) 9
  have h1 := h.1 (by decide) (by decide) (by decide)
  exact ⟨⟨h1.1, h1.2.1⟩, h.2.2.2.2.2⟩

/-- Pool lifecycle states (spec section 3, pool state machine). -/
inductive PoolState where
  | created
  | running
  | stopping
  | stopped
deriving DecidableEq

/-- The three queue-full policies (spec section 4.5). -/
inductive QueueFullPolicy where
  | block
  | discard
  | overwrite
deriving DecidableEq

/-- Stop modes (spec section 4.8). -/
inductive StopMode where
  | graceful
  | force
deriving DecidableEq

/-- The four error outcomes a future can carry, plus the user's own
failure re-raised (spec section 7). -/
inductive TaskErr where
  | rejected
  | discarded
  | overwritten
  | cancelled
  | user (msg : String)
deriving DecidableEq

instance {ε α : Type _} [DecidableEq ε] [DecidableEq α] : DecidableEq (Except ε α) :=
  fun x y =>
    match x, y with
    | .ok a, .ok b =>
      if h : a = b then .isTrue (by rw [h]) else .isFalse (by intro hc; cases hc; exact h rfl)
    | .error a, .error b =>
      if h : a = b then .isTrue (by rw [h]) else .isFalse (by intro hc; cases hc; exact h rfl)
    | .ok _, .error _ => .isFalse (by intro hc; cases hc)
    | .error _, .ok _ => .isFalse (by intro hc; cases hc)

/-- A task envelope: an identity for its future, and the outcome its body
produces when executed (a value, or a user failure message). -/
structure Env where
  id : Nat
  body : Except String Int
deriving DecidableEq

/-- What one call to `Submit`/`Post` observably does: it is refused with
`Rejected`, it blocks the caller (full queue under Block policy, or the
pool is paused — the repository's `ThreadPoolBasic.Pause` tests show a
submission during pause does not return until `Resume`), it enqueues, it
drops the new task under Discard, or it displaces the oldest queued task
under Overwrite. -/
inductive SubmitOutcome where
  | accepted
  | blockedWait
  | rejectedNow
  | discardedNow
  | overwroteOld (oldId : Nat)
deriving DecidableEq

/-- Executing a task body: a normal return carries the value to the
future unchanged; a user failure is transmitted unchanged as a captured
user error (spec sections 4.3 and 7). -/
def execBody : Except String Int → Except TaskErr Int
  | .ok v => .ok v
  | .error s => .error (.user s)

/-- Resolved futures, newest first; a task id absent from the list has a
still-pending future. -/
def lookupFuture (fs : List (Nat × Except TaskErr Int)) (i : Nat) :
    Option (Except TaskErr Int) :=
  match fs with
  | [] => none
  | (j, r) :: rest => if j = i then some r else lookupFuture rest i

/-- Modelled from the spec: the pool controller (component C5), whose
implementation header `thread_pool/thread_pool.hpp` is not in the
repository snapshot. The model is the sequential observable state: the
lifecycle state and paused bit, the policy, the task queue (abstracting
the adapter via its FIFO contents), the in-flight tasks, the resolved
futures, and the statistics counters. -/
structure ThreadPool where
  state : PoolState
  paused : Bool
  policy : QueueFullPolicy
  queueCap : Nat
  queue : List Env
  running : List Env
  futures : List (Nat × Except TaskErr Int)
  coreThreads : Nat
  currentThreads : Nat
  totalSubmitted : Nat
  totalCompleted : Nat
  totalFailed : Nat
  totalCancelled : Nat
  totalRejected : Nat
  discardedTasks : Nat
  overwrittenTasks : Nat
deriving DecidableEq

/-- Modelled from the spec: construction with a worker count and queue
capacity (rounded up like the ring buffer's); the pool starts CREATED
with no workers and all counters zero. -/
def ThreadPool.make (core cap : Nat) : ThreadPool :=
  ⟨.created, false, .block, nextPow2 cap, [], [], [], core, 0, 0, 0, 0, 0, 0, 0, 0⟩

/-- Modelled from the spec: `Start` spawns the core workers and moves
CREATED to RUNNING; any other state rejects the call (modelled as a
no-op on the observable state). -/
def ThreadPool.Start (p : ThreadPool) : ThreadPool :=
  if p.state = .created then
    { p with state := .running, currentThreads := p.coreThreads }
  else p

/-- Modelled from the spec: atomically replace the queue-full policy. -/
def ThreadPool.SetQueueFullPolicy (p : ThreadPool) (pol : QueueFullPolicy) : ThreadPool :=
  { p with policy := pol }

/-- Modelled from the spec: set the paused bit (idempotent). -/
def ThreadPool.Pause (p : ThreadPool) : ThreadPool :=
  { p with paused := true }

/-- Modelled from the spec: clear the paused bit (idempotent). -/
def ThreadPool.Resume (p : ThreadPool) : ThreadPool :=
  { p with paused := false }

/-- Modelled from the spec (submission path, section 4.5): refuse with
`Rejected` when not RUNNING; block the caller while the pool is paused
(the behaviour the `ThreadPoolBasic.Pause` unit tests establish: an
asynchronous `Submit` does not return within 100 ms of a paused pool and
returns after `Resume`, even though the queue is empty — note the spec
text instead says paused pools keep accepting, which those tests
contradict); enqueue when there is room; on a full queue apply the
policy: Block parks the caller, Discard fulfils the new future with
`Discarded` and drops the task, Overwrite displaces the oldest queued
envelope, fulfilling its future with `Overwritten`. -/
def ThreadPool.Submit (p : ThreadPool) (e : Env) : SubmitOutcome × ThreadPool :=
  if p.state ≠ .running then
    (.rejectedNow, { p with totalRejected := p.totalRejected + 1 })
  else if p.paused then
    (.blockedWait, p)
  else if p.queue.length < p.queueCap then
    (.accepted, { p with queue := p.queue ++ [e], totalSubmitted := p.totalSubmitted + 1 })
  else
    match p.policy with
    | .block => (.blockedWait, p)
    | .discard =>
      (.discardedNow,
       { p with discardedTasks := p.discardedTasks + 1,
                futures := (e.id, .error .discarded) :: p.futures })
    | .overwrite =>
      match p.queue with
      | [] => (.blockedWait, p)
      | old :: rest =>
        (.overwroteOld old.id,
         { p with queue := rest ++ [e],
                  overwrittenTasks := p.overwrittenTasks + 1,
                  totalSubmitted := p.totalSubmitted + 1,
                  futures := (old.id, .error .overwritten) :: p.futures })

/-- Modelled from the spec: `Post` follows the same submission path as
`Submit` but returns no future, so a Discard drop only counts the task
(spec: fire-and-forget); a displaced envelope's future is still fulfilled
because the displaced task may have been submitted with a future. -/
def ThreadPool.Post (p : ThreadPool) (e : Env) : SubmitOutcome × ThreadPool :=
  if p.state ≠ .running then
    (.rejectedNow, { p with totalRejected := p.totalRejected + 1 })
  else if p.paused then
    (.blockedWait, p)
  else if p.queue.length < p.queueCap then
    (.accepted, { p with queue := p.queue ++ [e], totalSubmitted := p.totalSubmitted + 1 })
  else
    match p.policy with
    | .block => (.blockedWait, p)
    | .discard =>
      (.discardedNow, { p with discardedTasks := p.discardedTasks + 1 })
    | .overwrite =>
      match p.queue with
      | [] => (.blockedWait, p)
      | old :: rest =>
        (.overwroteOld old.id,
         { p with queue := rest ++ [e],
                  overwrittenTasks := p.overwrittenTasks + 1,
                  totalSubmitted := p.totalSubmitted + 1,
                  futures := (old.id, .error .overwritten) :: p.futures })

/-- Modelled from the spec (worker loop, section 4.6): a worker takes the
oldest queued envelope into execution; while the pool is paused or not
RUNNING the dequeue is suspended and nothing is taken. -/
def ThreadPool.beginRun (p : ThreadPool) : ThreadPool :=
  if p.state = .running ∧ p.paused = false then
    match p.queue with
    | [] => p
    | e :: rest => { p with queue := rest, running := p.running ++ [e] }
  else p

/-- Modelled from the spec: finishing one envelope resolves its future
with exactly what the body produced and folds the outcome into the
completed/failed counters. -/
def ThreadPool.execEnv (p : ThreadPool) (e : Env) : ThreadPool :=
  { p with
    futures := (e.id, execBody e.body) :: p.futures,
    totalCompleted := p.totalCompleted + (match e.body with | .ok _ => 1 | .error _ => 0),
    totalFailed := p.totalFailed + (match e.body with | .ok _ => 0 | .error _ => 1) }

/-- Modelled from the spec: the oldest in-flight task runs to completion. -/
def ThreadPool.finishRun (p : ThreadPool) : ThreadPool :=
  match p.running with
  | [] => p
  | e :: rest => ({ p with running := rest }).execEnv e

/-- Execute a batch of envelopes in order (graceful drain). -/
def ThreadPool.execAll : ThreadPool → List Env → ThreadPool
  | p, [] => p
  | p, e :: es => ThreadPool.execAll (p.execEnv e) es

/-- Modelled from the spec: force-stop cancellation of one queued
envelope — its future resolves `Cancelled` and the cancelled counter is
bumped. -/
def ThreadPool.cancelEnv (p : ThreadPool) (e : Env) : ThreadPool :=
  { p with
    futures := (e.id, .error .cancelled) :: p.futures,
    totalCancelled := p.totalCancelled + 1 }

/-- Cancel a batch of queued envelopes in order (force stop). -/
def ThreadPool.cancelAll : ThreadPool → List Env → ThreadPool
  | p, [] => p
  | p, e :: es => ThreadPool.cancelAll (p.cancelEnv e) es

/-- Modelled from the spec (section 4.8): `Stop` requires RUNNING
(double stop rejects). Graceful closes the queue, lets in-flight tasks
finish and the remaining queue drain, then joins all workers. Force lets
in-flight tasks run to completion uninterrupted, cancels every queued
envelope, then joins all workers. Either way the pool ends STOPPED with
no pending or active tasks and no threads. -/
def ThreadPool.Stop (p : ThreadPool) (m : StopMode) : ThreadPool :=
  if p.state = .running then
    match m with
    | .graceful =>
      let p1 := (p.execAll p.running).execAll p.queue
      { p1 with queue := [], running := [], state := .stopped, currentThreads := 0 }
    | .force =>
      let p1 := (p.execAll p.running).cancelAll p.queue
      { p1 with queue := [], running := [], state := .stopped, currentThreads := 0 }
  else p

/-- Introspection: number of envelopes currently in the queue. -/
def ThreadPool.Pending (p : ThreadPool) : Nat := p.queue.length

/-- Introspection: number of workers currently inside a user task. -/
def ThreadPool.ActiveTasks (p : ThreadPool) : Nat := p.running.length

/-- Introspection: number of spawned, not yet joined workers. -/
def ThreadPool.CurrentThreads (p : ThreadPool) : Nat := p.currentThreads

/-- Introspection: tasks dropped by the Discard policy. -/
def ThreadPool.DiscardedTasks (p : ThreadPool) : Nat := p.discardedTasks

/-- Introspection: tasks displaced by the Overwrite policy (the source
spells the accessor `OverwrittedTasks`). -/
def ThreadPool.OverwrittedTasks (p : ThreadPool) : Nat := p.overwrittenTasks

/-- Introspection: lifecycle state. -/
def ThreadPool.State (p : ThreadPool) : PoolState := p.state

/-- Introspection: the paused bit. -/
def ThreadPool.Paused (p : ThreadPool) : Bool := p.paused

theorem lookupFuture_cons (j : Nat) (r : Except TaskErr Int)
    (fs : List (Nat × Except TaskErr Int)) (i : Nat) (h : j ≠ i) :
    lookupFuture ((j, r) :: fs) i = lookupFuture fs i := by
  simp [lookupFuture, h]

theorem execAll_cons (p : ThreadPool) (a : Env) (es : List Env) :
    ThreadPool.execAll p (a :: es) = ThreadPool.execAll (p.execEnv a) es := rfl

theorem cancelAll_cons (p : ThreadPool) (a : Env) (es : List Env) :
    ThreadPool.cancelAll p (a :: es) = ThreadPool.cancelAll (p.cancelEnv a) es := rfl

theorem lookupFuture_execAll_not_mem (p : ThreadPool) (es : List Env) (i : Nat)
    (h : ∀ e ∈ es, e.id ≠ i) :
    lookupFuture (ThreadPool.execAll p es).futures i = lookupFuture p.futures i := by
  induction es generalizing p with
  | nil => rfl
  | cons a rest ih =>
    rw [execAll_cons, ih (p.execEnv a) (fun e he => h e (List.mem_cons_of_mem _ he))]
    exact lookupFuture_cons _ _ _ _ (h a (List.mem_cons_self _ _))

theorem lookupFuture_execAll_mem (p : ThreadPool) (es : List Env) (e : Env)
    (he : e ∈ es) (hnd : (es.map Env.id).Nodup) :
    lookupFuture (ThreadPool.execAll p es).futures e.id = some (execBody e.body) := by
  induction es generalizing p with
  | nil => cases he
  | cons a rest ih =>
    rw [List.map_cons, List.nodup_cons] at hnd
    rcases List.mem_cons.mp he with hea | herest
    · subst hea
      rw [execAll_cons,
        lookupFuture_execAll_not_mem (p.execEnv e) rest e.id
          (fun x hx hxe => hnd.1 (hxe ▸ List.mem_map_of_mem Env.id hx))]
      simp [ThreadPool.execEnv, lookupFuture]
    · rw [execAll_cons]
      exact ih (p.execEnv a) herest hnd.2

theorem lookupFuture_cancelAll_not_mem (p : ThreadPool) (es : List Env) (i : Nat)
    (h : ∀ e ∈ es, e.id ≠ i) :
    lookupFuture (ThreadPool.cancelAll p es).futures i = lookupFuture p.futures i := by
  induction es generalizing p with
  | nil => rfl
  | cons a rest ih =>
    rw [cancelAll_cons, ih (p.cancelEnv a) (fun e he => h e (List.mem_cons_of_mem _ he))]
    exact lookupFuture_cons _ _ _ _ (h a (List.mem_cons_self _ _))

theorem lookupFuture_cancelAll_mem (p : ThreadPool) (es : List Env) (e : Env)
    (he : e ∈ es) (hnd : (es.map Env.id).Nodup) :
    lookupFuture (ThreadPool.cancelAll p es).futures e.id = some (.error .cancelled) := by
  induction es generalizing p with
  | nil => cases he
  | cons a rest ih =>
    rw [List.map_cons, List.nodup_cons] at hnd
    rcases List.mem_cons.mp he with hea | herest
    · subst hea
      rw [cancelAll_cons,
        lookupFuture_cancelAll_not_mem (p.cancelEnv e) rest e.id
          (fun x hx hxe => hnd.1 (hxe ▸ List.mem_map_of_mem Env.id hx))]
      simp [ThreadPool.cancelEnv, lookupFuture]
    · rw [cancelAll_cons]
      exact ih (p.cancelEnv a) herest hnd.2

theorem execAll_totalCancelled (p : ThreadPool) (es : List Env) :
    (ThreadPool.execAll p es).totalCancelled = p.totalCancelled := by
  induction es generalizing p with
  | nil => rfl
  | cons a rest ih => rw [execAll_cons, ih]; rfl

theorem cancelAll_totalCancelled (p : ThreadPool) (es : List Env) :
    (ThreadPool.cancelAll p es).totalCancelled = p.totalCancelled + es.length := by
  induction es generalizing p with
  | nil => rfl
  | cons a rest ih =>
    rw [cancelAll_cons, ih]
    simp [ThreadPool.cancelEnv]
    omega

/-- C4: for a RUNNING pool (Start succeeded), after `Stop(Graceful)`
returns, `Pending`, `ActiveTasks` and `CurrentThreads` are all zero and
the state is STOPPED; every task that was enqueued before the stop (and
every in-flight one) has been executed, its future resolved with exactly
its body's outcome. -/
theorem stop_graceful_quiescence (p : ThreadPool)
    (hrun : p.state = .running)
    (hnd : ((p.running ++ p.queue).map Env.id).Nodup) :
    (p.Stop .graceful).Pending = 0 ∧
    (p.Stop .graceful).ActiveTasks = 0 ∧
    (p.Stop .graceful).CurrentThreads = 0 ∧
    (p.Stop .graceful).State = .stopped ∧
    (∀ e ∈ p.queue, lookupFuture (p.Stop .graceful).futures e.id = some (execBody e.body)) ∧
    (∀ e ∈ p.running, lookupFuture (p.Stop .graceful).futures e.id = some (execBody e.body)) := by
  have hstop : p.Stop .graceful =
      { (p.execAll p.running).execAll p.queue with
        queue := [], running := [], state := .stopped, currentThreads := 0 } := by
    simp [ThreadPool.Stop, hrun]
  rw [List.map_append, List.nodup_append] at hnd
  refine ⟨by rw [hstop]; rfl, by rw [hstop]; rfl, by rw [hstop]; rfl, by rw [hstop]; rfl,
    ?_, ?_⟩
  · intro e he
    have : lookupFuture ((p.execAll p.running).execAll p.queue).futures e.id
        = some (execBody e.body) :=
      lookupFuture_execAll_mem (p.execAll p.running) p.queue e he hnd.2.1
    rw [hstop]
    exact this
  · intro e he
    have hdisj : ∀ x ∈ p.queue, x.id ≠ e.id := by
      intro x hx hxe
      exact hnd.2.2 (List.mem_map_of_mem Env.id he) (hxe ▸ List.mem_map_of_mem Env.id hx)
    have h1 : lookupFuture ((p.execAll p.running).execAll p.queue).futures e.id
        = lookupFuture (p.execAll p.running).futures e.id :=
      lookupFuture_execAll_not_mem (p.execAll p.running) p.queue e.id hdisj
    have h2 : lookupFuture (p.execAll p.running).futures e.id = some (execBody e.body) :=
      lookupFuture_execAll_mem p p.running e he hnd.1
    rw [hstop]
    exact h1.trans h2

/-- Concrete pool used by several witnesses: one core worker, capacity 4,
started, with task 1 in flight and task 2 queued. -/
def witnessPool : ThreadPool :=
  ((((ThreadPool.make 1 4).Start.Submit ⟨1, .ok 7⟩).2.Submit ⟨2, .error "boom"⟩).2).beginRun

/-- Witness for C4 on `witnessPool`. -/
theorem stop_graceful_quiescence_witness :
    witnessPool.state = .running ∧
    (witnessPool.Stop .graceful).Pending = 0 ∧
    (witnessPool.Stop .graceful).State = .stopped ∧
    lookupFuture (witnessPool.Stop .graceful).futures 1 = some (.ok 7) ∧
    lookupFuture (witnessPool.Stop .graceful).futures 2 = some (.error (.user "boom")) := by
  have h := stop_graceful_quiescence witnessPool (by decide) (by decide)
  refine ⟨by decide, h.1, h.2.2.2.1, ?_, ?_⟩
  · have := h.2.2.2.2.2 ⟨1, .ok 7⟩ (by decide)
    exact this
  · have := h.2.2.2.2.1 ⟨2, .error "boom"⟩ (by decide)
    exact this

/-- C5: once the pool is STOPPED, every `Submit` and every `Post` fails
with the `Rejected` outcome (counting one rejection); nothing is
enqueued, nothing starts running, and no future is resolved. -/
theorem submit_after_stop_rejected (p : ThreadPool) (e : Env)
    (h : p.state = .stopped) :
    (p.Submit e).1 = .rejectedNow ∧
    (p.Submit e).2.queue = p.queue ∧
    (p.Submit e).2.running = p.running ∧
    (p.Submit e).2.futures = p.futures ∧
    (p.Submit e).2.totalRejected = p.totalRejected + 1 ∧
    (p.Post e).1 = .rejectedNow ∧
    (p.Post e).2.queue = p.queue ∧
    (p.Post e).2.running = p.running ∧
    (p.Post e).2.futures = p.futures ∧
    (p.Post e).2.totalRejected = p.totalRejected + 1 := by
  have hne : p.state ≠ .running := by rw [h]; intro hc; cases hc
  simp [ThreadPool.Submit, ThreadPool.Post, hne]

/-- Witness for C5: submitting to the stopped `witnessPool`. -/
theorem submit_after_stop_rejected_witness :
    (witnessPool.Stop .graceful).state = .stopped ∧
    ((witnessPool.Stop .graceful).Submit ⟨9, .ok 1⟩).1 = .rejectedNow ∧
    ((witnessPool.Stop .graceful).Post ⟨9, .ok 1⟩).1 = .rejectedNow := by
  have h := submit_after_stop_rejected (witnessPool.Stop .graceful) ⟨9, .ok 1⟩ (by decide)
  exact ⟨by decide, h.1, h.2.2.2.2.2.1⟩

/-- C8: `Stop(Force)` cancels exactly the tasks still queued — each of
their futures resolves `Cancelled` and `total_cancelled` grows by the
number of queued tasks — while every in-flight task runs to completion
with its real outcome; afterwards the pool is STOPPED with no active, no
pending tasks and no threads. -/
theorem stop_force_cancels_queued (p : ThreadPool)
    (hrun : p.state = .running)
    (hnd : ((p.running ++ p.queue).map Env.id).Nodup) :
    (p.Stop .force).State = .stopped ∧
    (p.Stop .force).ActiveTasks = 0 ∧
    (p.Stop .force).Pending = 0 ∧
    (p.Stop .force).CurrentThreads = 0 ∧
    (p.Stop .force).totalCancelled = p.totalCancelled + p.queue.length ∧
    (∀ e ∈ p.queue, lookupFuture (p.Stop .force).futures e.id = some (.error .cancelled)) ∧
    (∀ e ∈ p.running, lookupFuture (p.Stop .force).futures e.id = some (execBody e.body)) := by
  have hstop : p.Stop .force =
      { (p.execAll p.running).cancelAll p.queue with
        queue := [], running := [], state := .stopped, currentThreads := 0 } := by
    simp [ThreadPool.Stop, hrun]
  rw [List.map_append, List.nodup_append] at hnd
  refine ⟨by rw [hstop]; rfl, by rw [hstop]; rfl, by rw [hstop]; rfl, by rw [hstop]; rfl,
    ?_, ?_, ?_⟩
  · rw [hstop]
    show ((p.execAll p.running).cancelAll p.queue).totalCancelled = _
    rw [cancelAll_totalCancelled, execAll_totalCancelled]
  · intro e he
    rw [hstop]
    exact lookupFuture_cancelAll_mem (p.execAll p.running) p.queue e he hnd.2.1
  · intro e he
    have hdisj : ∀ x ∈ p.queue, x.id ≠ e.id := by
      intro x hx hxe
      exact hnd.2.2 (List.mem_map_of_mem Env.id he) (hxe ▸ List.mem_map_of_mem Env.id hx)
    rw [hstop]
    exact (lookupFuture_cancelAll_not_mem (p.execAll p.running) p.queue e.id hdisj).trans
      (lookupFuture_execAll_mem p p.running e he hnd.1)

/-- Witness for C8 on `witnessPool`: the queued task 2 is cancelled, the
in-flight task 1 completes with its value. -/
theorem stop_force_cancels_queued_witness :
    witnessPool.state = .running ∧
    (witnessPool.Stop .force).State = .stopped ∧
    (witnessPool.Stop .force).totalCancelled = witnessPool.totalCancelled + 1 ∧
    lookupFuture (witnessPool.Stop .force).futures 2 = some (.error .cancelled) ∧
    lookupFuture (witnessPool.Stop .force).futures 1 = some (.ok 7) := by
  have h := stop_force_cancels_queued witnessPool (by decide) (by decide)
  refine ⟨by decide, h.1, ?_, ?_, ?_⟩
  · have := h.2.2.2.2.1
    simpa using this
  · exact h.2.2.2.2.2.1 ⟨2, .error "boom"⟩ (by decide)
  · exact h.2.2.2.2.2.2 ⟨1, .ok 7⟩ (by decide)

/-- C6: under the Discard policy, a `Submit` made while the queue is full
(pool running, not paused) returns the `Discarded` outcome: the new
task's future resolves with a `Discarded` error, the discarded counter
grows by exactly one, the task is not enqueued and the queued tasks are
untouched. -/
theorem discard_policy_full_submit (p : ThreadPool) (e : Env)
    (hrun : p.state = .running) (hp : p.paused = false)
    (hpol : p.policy = .discard) (hfull : p.queue.length = p.queueCap) :
    (p.Submit e).1 = .discardedNow ∧
    lookupFuture (p.Submit e).2.futures e.id = some (.error .discarded) ∧
    (p.Submit e).2.DiscardedTasks = p.DiscardedTasks + 1 ∧
    (p.Submit e).2.queue = p.queue ∧
    (p.Submit e).2.totalSubmitted = p.totalSubmitted := by
  have hne : ¬p.state ≠ PoolState.running := by rw [hrun]; intro hc; exact hc rfl
  have hnf : ¬p.queue.length < p.queueCap := by omega
  simp [ThreadPool.Submit, hne, hp, hnf, hpol, ThreadPool.DiscardedTasks, lookupFuture]

/-- Concrete pool for the Discard witness: worker occupied by task 0,
queue seeded full with tasks 1..4, Discard policy. -/
def discardPool : ThreadPool :=
  (((((((ThreadPool.make 1 4).Start.SetQueueFullPolicy .discard).Submit
    ⟨0, .ok 0⟩).2.beginRun.Submit ⟨1, .ok 101⟩).2.Submit
    ⟨2, .ok 102⟩).2.Submit ⟨3, .ok 103⟩).2.Submit ⟨4, .ok 104⟩).2

/-- Witness for C6 on `discardPool`. -/
theorem discard_policy_full_submit_witness :
    discardPool.state = .running ∧ discardPool.queue.length = discardPool.queueCap ∧
    (discardPool.Submit ⟨5, .ok 105⟩).1 = .discardedNow ∧
    lookupFuture (discardPool.Submit ⟨5, .ok 105⟩).2.futures 5 = some (.error .discarded) ∧
    (discardPool.Submit ⟨5, .ok 105⟩).2.DiscardedTasks = discardPool.DiscardedTasks + 1 := by
  have h := discard_policy_full_submit discardPool ⟨5, .ok 105⟩
    (by decide) (by decide) (by decide) (by decide)
  exact ⟨by decide, by decide, h.1, h.2.1, h.2.2.1⟩

/-- C9: a task accepted by `Submit` into an idle running pool is executed
with its future resolving to exactly what the body produced: a normal
return delivers precisely the computed value, and a failure raised inside
the body is transmitted unchanged (as the captured user error). -/
theorem submit_future_outcome (p : ThreadPool) (e : Env)
    (hrun : p.state = .running) (hp : p.paused = false)
    (hq : p.queue = []) (hr : p.running = []) (hcap : 0 < p.queueCap) :
    (p.Submit e).1 = .accepted ∧
    lookupFuture ((p.Submit e).2.beginRun.finishRun).futures e.id
      = some (execBody e.body) ∧
    (∀ v, e.body = .ok v →
      lookupFuture ((p.Submit e).2.beginRun.finishRun).futures e.id = some (.ok v)) ∧
    (∀ s, e.body = .error s →
      lookupFuture ((p.Submit e).2.beginRun.finishRun).futures e.id
        = some (.error (.user s))) := by
  have hne : ¬p.state ≠ PoolState.running := by rw [hrun]; intro hc; exact hc rfl
  have hroom : p.queue.length < p.queueCap := by rw [hq]; simpa using hcap
  have hsub : p.Submit e =
      (.accepted, { p with queue := p.queue ++ [e],
                           totalSubmitted := p.totalSubmitted + 1 }) := by
    simp [ThreadPool.Submit, hne, hp, hroom]
  have hbegin : (p.Submit e).2.beginRun =
      { p with queue := [], running := p.running ++ [e],
               totalSubmitted := p.totalSubmitted + 1 } := by
    rw [hsub]
    simp [ThreadPool.beginRun, hrun, hp, hq]
  have hfin : (p.Submit e).2.beginRun.finishRun =
      ({ p with queue := [], running := [],
                totalSubmitted := p.totalSubmitted + 1 } : ThreadPool).execEnv e := by
    rw [hbegin]
    simp [ThreadPool.finishRun, hr]
  have hlook : lookupFuture ((p.Submit e).2.beginRun.finishRun).futures e.id
      = some (execBody e.body) := by
    rw [hfin]
    simp [ThreadPool.execEnv, lookupFuture]
  refine ⟨by rw [hsub], hlook, ?_, ?_⟩
  · intro v hv
    rw [hlook, hv]
    rfl
  · intro s hs
    rw [hlook, hs]
    rfl

/-- Witness for C9: one value-returning task and one failing task, each
submitted to a fresh running pool. -/
theorem submit_future_outcome_witness :
    ((ThreadPool.make 1 4).Start.Submit ⟨1, .ok 12⟩).1 = .accepted ∧
    lookupFuture (((ThreadPool.make 1 4).Start.Submit
      ⟨1, .ok 12⟩).2.beginRun.finishRun).futures 1 = some (.ok 12) ∧
    lookupFuture (((ThreadPool.make 1 4).Start.Submit
      ⟨1, .error "fail"⟩).2.beginRun.finishRun).futures 1 = some (.error (.user "fail")) := by
  have hok := submit_future_outcome ((ThreadPool.make 1 4).Start) ⟨1, .ok 12⟩
    (by decide) (by decide) (by decide) (by decide) (by decide)
  have herr := submit_future_outcome ((ThreadPool.make 1 4).Start) ⟨1, .error "fail"⟩
    (by decide) (by decide) (by decide) (by decide) (by decide)
  exact ⟨hok.1, hok.2.2.1 12 rfl, herr.2.2.2 "fail" rfl⟩

/-- The C7 scenario, before release: one core worker occupied by a gated
task (id 0), Overwrite policy, queue of capacity 4 seeded with tasks
1..4 returning 100..103, then three new submissions 5..7 returning
200..202 against the full queue. -/
def overwritePool : ThreadPool :=
  ((((((((((ThreadPool.make 1 4).Start.SetQueueFullPolicy .overwrite).Submit
    ⟨0, .ok 0⟩).2.beginRun.Submit ⟨1, .ok 100⟩).2.Submit
    ⟨2, .ok 101⟩).2.Submit ⟨3, .ok 102⟩).2.Submit ⟨4, .ok 103⟩).2.Submit
    ⟨5, .ok 200⟩).2.Submit ⟨6, .ok 201⟩).2.Submit ⟨7, .ok 202⟩).2

/-- The C7 scenario after the gate is released and the pool drains. -/
def overwritePoolDone : ThreadPool := overwritePool.Stop .graceful

/-- C7: in the Overwrite scenario (full queue of 4 seeds returning
100..103, three new submissions returning 200..202 against one occupied
worker), `OverwrittedTasks` reads 3, `Pending` stays 4, the first three
seed futures resolve with an `Overwritten` error, and the fourth seed and
the three new tasks all execute and deliver their declared values. -/
theorem overwrite_policy_scenario :
    overwritePool.OverwrittedTasks = 3 ∧
    overwritePool.Pending = 4 ∧
    lookupFuture overwritePool.futures 1 = some (.error .overwritten) ∧
    lookupFuture overwritePool.futures 2 = some (.error .overwritten) ∧
    lookupFuture overwritePool.futures 3 = some (.error .overwritten) ∧
    lookupFuture overwritePoolDone.futures 4 = some (.ok 103) ∧
    lookupFuture overwritePoolDone.futures 5 = some (.ok 200) ∧
    lookupFuture overwritePoolDone.futures 6 = some (.ok 201) ∧
    lookupFuture overwritePoolDone.futures 7 = some (.ok 202) := by
  decide

/-- The paused pool of the C2 counterexample: one core worker, capacity
4, started, then paused; default Block policy, empty queue. -/
def pausedPool : ThreadPool := (ThreadPool.make 1 4).Start.Pause

/-- C2 counterexample: on a paused RUNNING pool under Block policy with
an empty (hence non-full) queue, `Submit` does not complete — it blocks
the caller instead of being accepted, exactly as the repository's
`ThreadPoolBasic.Pause` test observes (the asynchronous `Submit` is still
outstanding after 100 ms and only returns after `Resume`). This refutes
the claim that a submission during pause is accepted exactly as when not
paused and returns promptly. -/
theorem pause_blocks_submit_cex :
    pausedPool.state = .running ∧
    pausedPool.paused = true ∧
    pausedPool.policy = .block ∧
    pausedPool.Pending = 0 ∧
    pausedPool.Pending < pausedPool.queueCap ∧
    (pausedPool.Submit ⟨1, .ok 555⟩).1 = .blockedWait ∧
    ¬(pausedPool.Submit ⟨1, .ok 555⟩).1 = .accepted ∧
    (pausedPool.Submit ⟨1, .ok 555⟩).2.queue = [] := by
  decide

/-- C2 amended: while a RUNNING pool is paused, `Submit` and `Post` block
the caller (they do not complete until the pool is resumed or stopped),
even under Block policy with a non-full queue, and leave the pool
unchanged; the workers' dequeue is likewise suspended, so no queued task
begins executing until `Resume`. -/
theorem pause_blocks_submit (p : ThreadPool) (e : Env)
    (hrun : p.state = .running) (hp : p.paused = true) :
    (p.Submit e).1 = .blockedWait ∧
    (p.Submit e).2 = p ∧
    (p.Post e).1 = .blockedWait ∧
    (p.Post e).2 = p ∧
    p.beginRun = p := by
  have hne : ¬p.state ≠ PoolState.running := by rw [hrun]; intro hc; exact hc rfl
  have hpb : ¬(p.state = PoolState.running ∧ p.paused = false) := by
    intro hc
    rw [hp] at hc
    cases hc.2
  simp [ThreadPool.Submit, ThreadPool.Post, ThreadPool.beginRun, hne, hp, hpb]

/-- Witness for the amended C2 on the concrete paused pool. -/
theorem pause_blocks_submit_witness :
    pausedPool.state = .running ∧ pausedPool.paused = true ∧
    (pausedPool.Submit ⟨2, .ok 5⟩).1 = .blockedWait ∧
    (pausedPool.Post ⟨2, .ok 5⟩).1 = .blockedWait ∧
    pausedPool.beginRun = pausedPool := by
  have h := pause_blocks_submit pausedPool ⟨2, .ok 5⟩ (by decide) (by decide)
  exact ⟨by decide, by decide, h.1, h.2.2.1, h.2.2.2.2⟩
